import Mathlib

/-!
Verification of the community MQTT feed client
(`src/octobot/community/feeds/community_mqtt_feed.py`).

The Python class `CommunityMQTTFeed` is shallowly embedded as pure Lean
functions.  Stateful pieces (the callback registry and the subscribed-topic
set) become explicit state passing on a `FeedState` record; every transport
side effect (subscribe, publish, resubscribe) is recorded as an explicit
`MqttAction`; exceptions become `Except PyErr`.  External stdlib collaborators
(`zlib`, `json`, UTF-8) are embedded at the byte/character level as
executable codecs that honour their contracts on the inputs this client
produces; the JSON serializer and parser are real character-level functions
with a proved round trip.
-/

namespace OctobotFeed

/-- Python exception classes that the feed code can raise: `zlib.error`,
`UnicodeDecodeError` and `json.JSONDecodeError` are grouped as `decodeError`
(the decode pipeline raises them); `commons_errors.UnsupportedError` is the
only class caught inside `_on_message`; `keyError` and `typeError` model
`KeyError` / `TypeError` from dictionary item access and `LooseVersion`. -/
inductive PyErr where
  | decodeError
  | unsupportedError
  | keyError
  | typeError
deriving DecidableEq, Repr

/-- A community channel type.  The Python code receives members of the
external enum `commons_enums.CommunityChannelTypes`; only the `.value`
string is ever inspected, so the embedding keeps just that string. -/
structure ChannelType where
  value : String
deriving DecidableEq, Repr

/-- A gmqtt subscription, as built by `_subscribe`:
`gmqtt.Subscription(topic, qos)` carries the topic and the requested QoS. -/
abbrev Subscription := String × Nat

/-- Decimal digit character for `d < 10` (`'0'` when out of range, which the
callers never produce). -/
def digitChar : Nat → Char
  | 0 => '0'
  | 1 => '1'
  | 2 => '2'
  | 3 => '3'
  | 4 => '4'
  | 5 => '5'
  | 6 => '6'
  | 7 => '7'
  | 8 => '8'
  | 9 => '9'
  | _ => '0'

/-- Decimal rendering of a natural number, most significant digit first,
as produced by Python `str(n)` / `json.dumps` for a non-negative int. -/
def natToDigits (n : Nat) : List Char :=
  if n < 10 then [digitChar n]
  else natToDigits (n / 10) ++ [digitChar (n % 10)]
decreasing_by exact Nat.div_lt_self (by omega) (by omega)

/-- Numeric value of a digit character. -/
def digitVal (c : Char) : Nat := c.toNat - 48

/-- Value of a most-significant-first digit string, continuing from an
accumulator (the shape used by the digit-run parsers below). -/
def digitsToNatFrom (acc : Nat) (l : List Char) : Nat :=
  l.foldl (fun a c => a * 10 + digitVal c) acc

/-- Value of a most-significant-first digit string. -/
def digitsToNat (l : List Char) : Nat := digitsToNatFrom 0 l

/-- `pySpan p l` splits `l` into its longest prefix of characters satisfying
`p` and the remainder (the shape of a maximal regex token match). -/
def pySpan (p : Char → Bool) : List Char → List Char × List Char
  | [] => ([], [])
  | c :: cs =>
    if p c then
      let r := pySpan p cs
      (c :: r.1, r.2)
    else ([], c :: cs)

mutual
/-- JSON values, as handled by Python `json.dumps` / `json.loads` in this
client: strings, non-negative integers and objects cover the envelope and
the structured payloads the feed carries. -/
inductive JVal where
  | jstr (s : String)
  | jnat (n : Nat)
  | jobj (fields : JFields)
inductive JFields where
  | nil
  | cons (key : String) (val : JVal) (rest : JFields)
end

mutual
/-- Serialization of a JSON value, character for character the output of
Python `json.dumps` with its default separators (`", "` between members,
`": "` after a key) on well-formed inputs (see `wfV`). -/
def dumpsV : JVal → List Char
  | .jstr s => '"' :: s.data ++ ['"']
  | .jnat n => natToDigits n
  | .jobj fs => '{' :: dumpsF fs ++ ['}']
def dumpsF : JFields → List Char
  | .nil => []
  | .cons k v rest =>
    '"' :: k.data ++ '"' :: ':' :: ' ' :: dumpsV v ++
      (match rest with
       | .nil => []
       | .cons _ _ _ => ',' :: ' ' :: dumpsF rest)
end

mutual
/-- Structural size used as the parser fuel bound. -/
def sizeV : JVal → Nat
  | .jstr _ => 1
  | .jnat _ => 1
  | .jobj fs => sizeF fs + 1
def sizeF : JFields → Nat
  | .nil => 1
  | .cons _ v rest => sizeV v + sizeF rest + 1
end

/-- A well-formed JSON string for this embedding: printable ASCII with no
quote and no backslash, so `json.dumps` emits it verbatim between quotes
(no escape sequences, no non-ASCII `\uXXXX` escapes). -/
def wfStr (s : String) : Bool :=
  s.data.all fun c => decide (32 ≤ c.toNat) && decide (c.toNat < 128) &&
    (c != '"') && (c != '\\')

mutual
/-- Well-formedness of a JSON value / field list: every string literal and
every key is `wfStr`. -/
def wfV : JVal → Bool
  | .jstr s => wfStr s
  | .jnat _ => true
  | .jobj fs => wfF fs
def wfF : JFields → Bool
  | .nil => true
  | .cons k v rest => wfStr k && wfV v && wfF rest
end

/-- String-literal body parser: consumes characters up to the closing quote
(which it also consumes) and returns them with the rest of the input;
fails at end of input. -/
def parseStrChars : List Char → Option (List Char × List Char)
  | [] => none
  | c :: cs =>
    if c = '"' then some ([], cs)
    else
      match parseStrChars cs with
      | some (s, rest) => some (c :: s, rest)
      | none => none

mutual
/-- Fuel-indexed parser for the canonical JSON text emitted by `dumpsV`,
modelling the `json.loads` grammar restricted to that canonical form. -/
def parseV : Nat → List Char → Option (JVal × List Char)
  | 0, _ => none
  | _ + 1, [] => none
  | f + 1, c :: cs =>
    if c = '"' then
      match parseStrChars cs with
      | some (s, rest) => some (.jstr (String.mk s), rest)
      | none => none
    else if c.isDigit then
      let p := pySpan Char.isDigit (c :: cs)
      some (.jnat (digitsToNat p.1), p.2)
    else if c = '{' then
      match parseF f cs with
      | some (fs, rest) => some (.jobj fs, rest)
      | none => none
    else none
def parseF : Nat → List Char → Option (JFields × List Char)
  | 0, _ => none
  | _ + 1, [] => none
  | f + 1, c :: cs =>
    if c = '}' then some (.nil, cs)
    else if c = '"' then
      match parseStrChars cs with
      | none => none
      | some (k, r1) =>
        match r1 with
        | [] => none
        | c1 :: r2 =>
          if c1 = ':' then
            match r2 with
            | [] => none
            | c2 :: r3 =>
              if c2 = ' ' then
                match parseV f r3 with
                | none => none
                | some (v, r4) =>
                  match r4 with
                  | [] => none
                  | d1 :: r5 =>
                    if d1 = ',' then
                      match r5 with
                      | [] => none
                      | d2 :: r6 =>
                        if d2 = ' ' then
                          match parseF f r6 with
                          | none => none
                          | some (fs, r7) => some (.cons (String.mk k) v fs, r7)
                        else none
                    else if d1 = '}' then some (.cons (String.mk k) v .nil, r5)
                    else none
              else none
          else none
    else none
end

/-- Head of a character list is not a decimal digit (the condition under
which a greedy number parse stops exactly at a separator). -/
def noDigitHead (l : List Char) : Prop :=
  ∀ c, l.head? = some c → c.isDigit = false

/-- `zlib.compress`, modelled by its contract: a lossless stream whose first
two bytes are the standard zlib header `0x78 0x9c`; the DEFLATE bit-level
encoding itself is elided (the client only relies on
`decompress (compress b) = b` and on decompression failing on data that is
not a zlib stream). -/
def zlib_compress (b : List Nat) : List Nat := 120 :: 156 :: b

/-- `zlib.decompress`, inverse of `zlib_compress`; raises `zlib.error`
(`none` here) on input without a valid zlib header. -/
def zlib_decompress : List Nat → Option (List Nat)
  | 120 :: 156 :: rest => some rest
  | _ => none

/-- Python `str.encode()` (UTF-8), restricted to the ASCII texts this client
produces (`wfStr` forces ASCII): one byte per character. -/
def utf8Encode (s : List Char) : List Nat := s.map Char.toNat

/-- Python `bytes.decode()` (UTF-8) on ASCII data; raises
`UnicodeDecodeError` (`none`) on non-ASCII bytes. -/
def utf8Decode (b : List Nat) : Option (List Char) :=
  if b.all fun n => decide (n < 128) then some (b.map fun n => Char.ofNat n)
  else none

/-- Modelled from the spec: `constants.COMMUNITY_FEED_CURRENT_MINIMUM_VERSION`
is defined in `octobot/constants.py`, which is not among the sources under
verification; the spec fixes the process-wide minimum supported version
to be the semantic-version string 1.0.0. -/
def COMMUNITY_FEED_CURRENT_MINIMUM_VERSION : String := "1.0.0"

/-- Modelled from the spec: the envelope field tag
`commons_enums.CommunityFeedAttrs.CHANNEL_TYPE.value` comes from the
external octobot_commons package; the spec names this wire field
`channel_type`. -/
def CHANNEL_TYPE_KEY : String := "channel_type"

/-- Modelled from the spec: `CommunityFeedAttrs.VERSION.value`, the wire
field `version`. -/
def VERSION_KEY : String := "version"

/-- Modelled from the spec: `CommunityFeedAttrs.VALUE.value`, the wire
field `value`. -/
def VALUE_KEY : String := "value"

/-- `CommunityMQTTFeed.default_QOS = 1` (class attribute, line 37). -/
def default_QOS : Nat := 1

/-- `gmqtt.constants.SubAckReasonCode.UNSPECIFIED_ERROR.value = 0x80`: the
first error-class MQTT subscribe-acknowledgment reason code; all error codes
are greater than or equal to it. -/
def UNSPECIFIED_ERROR : Nat := 128

/-- The wire payload `_build_message` hands to `publish`: either compressed
bytes, or the literal empty Python dict returned on the empty-message
short-circuit. -/
inductive WirePayload where
  | bytes (b : List Nat)
  | emptyDict
deriving DecidableEq, Repr

/-- A transport side effect issued to the gmqtt client. -/
inductive MqttAction where
  | subscribe (subs : List Subscription)
  | publish (topic : String) (payload : WirePayload) (qos : Nat)
  | resubscribe (sub : Subscription)
deriving DecidableEq, Repr

/-- The mutable session state of `CommunityMQTTFeed`: `feed_callbacks`
(an insertion-ordered dict from topic to the ordered list of registered
callbacks, callbacks identified by abstract ids) and `_subscription_topics`
(a set of topic strings, kept here as a duplicate-free list). -/
structure FeedState where
  feed_callbacks : List (String × List Nat)
  subscription_topics : List String
deriving DecidableEq, Repr

/-- Python rendering of the identifier inside the f-string of
`_build_topic`: `None` prints as the four characters of the word None. -/
def identifierStr : Option String → String
  | none => "None"
  | some s => s

/-- `_build_topic` (lines 80-82): the f-string of channel value, slash,
identifier. -/
def _build_topic (channel_type : ChannelType) (identifier : Option String) : String :=
  channel_type.value ++ "/" ++ identifierStr identifier

/-- Python truthiness of a JSON value (`if message:`): empty string, zero
and empty dict are falsy. -/
def pyTruthyJ : JVal → Bool
  | .jstr s => !s.isEmpty
  | .jnat n => n != 0
  | .jobj .nil => false
  | .jobj (.cons _ _ _) => true

/-- Python truthiness of an optional message (None is falsy). -/
def pyTruthy : Option JVal → Bool
  | none => false
  | some v => pyTruthyJ v

/-- The logical envelope dict built by `_build_message` (lines 112-116),
fields in the source's insertion order. -/
def envelope (channel_type : ChannelType) (value : JVal) : JVal :=
  .jobj (.cons CHANNEL_TYPE_KEY (.jstr channel_type.value)
    (.cons VERSION_KEY (.jstr COMMUNITY_FEED_CURRENT_MINIMUM_VERSION)
      (.cons VALUE_KEY value .nil)))

/-- `_build_message` (lines 109-118): on a truthy message, dump the envelope
to JSON, UTF-8 encode and zlib-compress it; on a falsy or absent message,
return the empty dict without building any envelope. -/
def _build_message (channel_type : ChannelType) (message : Option JVal) : WirePayload :=
  match message with
  | some v =>
    if pyTruthyJ v then
      .bytes (zlib_compress (utf8Encode (dumpsV (envelope channel_type v))))
    else .emptyDict
  | none => .emptyDict

/-- `json.loads` on the canonical texts of `dumpsV`: run the parser with
ample fuel and require the whole input to be consumed. -/
def json_loads (s : List Char) : Option JVal :=
  match parseV (s.length + 1) s with
  | some (v, []) => some v
  | _ => none

/-- The inbound decode pipeline of `_on_message` line 86:
`json.loads(zlib.decompress(payload).decode())`; each stage can raise,
modelled as `decodeError`. -/
def decodePayload (payload : List Nat) : Except PyErr JVal :=
  match zlib_decompress payload with
  | none => .error .decodeError
  | some b =>
    match utf8Decode b with
    | none => .error .decodeError
    | some s =>
      match json_loads s with
      | none => .error .decodeError
      | some v => .ok v

/-- Dict lookup inside a JSON object. -/
def jfind : JFields → String → Option JVal
  | .nil, _ => none
  | .cons k v rest, key => if k = key then some v else jfind rest key

/-- Python subscript `parsed_message[key]`: `KeyError` on a missing key,
`TypeError` when the value is not a dict. -/
def getItem : JVal → String → Except PyErr JVal
  | .jobj fs, key =>
    match jfind fs key with
    | some v => .ok v
    | none => .error .keyError
  | _, _ => .error .typeError

/-- A component of `distutils.version.LooseVersion`: a numeric run parsed to
an int, or a non-numeric run kept as a string. -/
inductive LC where
  | num (n : Nat)
  | str (s : List Char)
deriving DecidableEq, Repr

/-- Lowercase ASCII letter, the `[a-z]` class of LooseVersion's
component regex. -/
def isLowerAlpha (c : Char) : Bool :=
  decide (97 ≤ c.toNat) && decide (c.toNat ≤ 122)

/-- Character that matches none of the LooseVersion component alternatives
(digit run, lowercase run, dot): such characters form separator runs that
`re.split` nevertheless returns as components. -/
def isLooseSep (c : Char) : Bool :=
  !c.isDigit && !isLowerAlpha c && (c != '.')

/-- `LooseVersion.parse`: split the version string on the regex of digit
runs, lowercase runs and dots; dots are dropped, digit runs become ints,
all other maximal runs stay strings. -/
def looseTokenize : List Char → List LC
  | [] => []
  | c :: cs =>
    if c.isDigit then
      .num (digitsToNat (c :: (pySpan Char.isDigit cs).1)) ::
        looseTokenize (pySpan Char.isDigit cs).2
    else if c = '.' then looseTokenize cs
    else if isLowerAlpha c then
      .str (c :: (pySpan isLowerAlpha cs).1) ::
        looseTokenize (pySpan isLowerAlpha cs).2
    else
      .str (c :: (pySpan isLooseSep cs).1) ::
        looseTokenize (pySpan isLooseSep cs).2
termination_by l => l.length
decreasing_by
  all_goals
    have hspan : ∀ (q : Char → Bool) (l : List Char),
        (pySpan q l).2.length ≤ l.length := by
      intro q l
      induction l with
      | nil => simp [pySpan]
      | cons d ds ih =>
        by_cases hd : q d
        · simp only [pySpan, hd, if_pos]
          exact Nat.le_trans ih (Nat.le_succ _)
        · simp [pySpan, hd]
  all_goals simp only [List.length_cons]
  · have := hspan Char.isDigit cs
    omega
  · omega
  · have := hspan isLowerAlpha cs
    omega
  · have := hspan isLooseSep cs
    omega

/-- Lexicographic comparison of character lists, Python `str.__lt__` by
code points. -/
def charListLt : List Char → List Char → Bool
  | [], [] => false
  | [], _ :: _ => true
  | _ :: _, [] => false
  | a :: as, b :: bs => if a = b then charListLt as bs else decide (a.toNat < b.toNat)

/-- Comparison of two LooseVersion components under Python 3 `<`:
int-int and str-str compare normally, a mixed pair raises `TypeError`
(`none`). -/
def lcLt : LC → LC → Option Bool
  | .num a, .num b => some (decide (a < b))
  | .str a, .str b => some (charListLt a b)
  | _, _ => none

/-- Python list `<` on LooseVersion component lists: first unequal pair
decides (raising on a mixed-type pair), otherwise the shorter list is
smaller. -/
def looseListLt : List LC → List LC → Option Bool
  | [], [] => some false
  | [], _ :: _ => some true
  | _ :: _, [] => some false
  | a :: as, b :: bs => if a = b then looseListLt as bs else lcLt a b

/-- `LooseVersion(v).version` for a version string. -/
def looseVersionParse (s : String) : List LC := looseTokenize s.data

/-- `_ensure_supported` (lines 120-125): raise `UnsupportedError` when the
envelope's version compares LooseVersion-less-than the minimum constant;
subscript and comparison failures raise their own exception classes. -/
def _ensure_supported (parsed_message : JVal) : Except PyErr Unit :=
  match getItem parsed_message VERSION_KEY with
  | .error e => .error e
  | .ok (.jstr v) =>
    match looseListLt (looseVersionParse v)
        (looseVersionParse COMMUNITY_FEED_CURRENT_MINIMUM_VERSION) with
    | some true => .error .unsupportedError
    | some false => .ok ()
    | none => .error .typeError
  | .ok _ => .error .typeError

/-- `_get_callbacks` (lines 102-104): `feed_callbacks.get(topic, ())`,
the registered callbacks of a topic in registration order, empty when the
topic is unknown. -/
def _get_callbacks (st : FeedState) (topic : String) : List Nat :=
  match st.feed_callbacks.find? fun p => p.1 == topic with
  | some p => p.2
  | none => []

/-- `_on_message` (lines 84-93): decode the payload (line 86 sits outside
the try block, so a decode failure propagates), then inside the
try block check the version and on success await every callback of the
topic in order; only `UnsupportedError` is caught and swallowed.  The
result is the ordered list of callbacks invoked for the message, or the
exception that escapes the handler. -/
def _on_message (st : FeedState) (topic : String) (payload : List Nat) :
    Except PyErr (List Nat) :=
  match decodePayload payload with
  | .error e => .error e
  | .ok parsed_message =>
    match _ensure_supported parsed_message with
    | .ok _ => .ok (_get_callbacks st topic)
    | .error .unsupportedError => .ok []
    | .error e => .error e

/-- `self.feed_callbacks[topic].append(callback)` with the KeyError fallback
creating a fresh one-element list (lines 59-62): insertion-ordered dict
update. -/
def addCallback : List (String × List Nat) → String → Nat → List (String × List Nat)
  | [], topic, cb => [(topic, [cb])]
  | (k, cbs) :: rest, topic, cb =>
    if k = topic then (k, cbs ++ [cb]) :: rest
    else (k, cbs) :: addCallback rest topic cb

/-- `set.add`: appends only when absent (a Python set never holds
duplicates). -/
def setAdd (l : List String) (t : String) : List String :=
  if l.contains t then l else l ++ [t]

/-- The membership test of line 63, exactly as written in the source:
`identifier not in self._subscription_topics` compares the IDENTIFIER (not
the built topic) against the set of topic strings; `None` is never a member
of a set of strings. -/
def identifierInTopics : Option String → List String → Bool
  | none, _ => false
  | some s, topics => topics.contains s

/-- `_subscribe` (lines 161-170): an empty topic collection is a logged
no-op; otherwise one transport subscribe request carrying every topic at
the default QoS. -/
def _subscribe (topics : List String) : List MqttAction :=
  match topics with
  | [] => []
  | _ => [.subscribe (topics.map fun t => (t, default_QOS))]

/-- `register_feed_callback` (lines 57-65): append the callback under the
built topic, then, when the line-63 membership test fails, add the topic to
the subscribed set and issue an immediate single-topic subscribe request.
Returns the new state and the transport actions issued. -/
def register_feed_callback (st : FeedState) (channel_type : ChannelType)
    (callback : Nat) (identifier : Option String) : FeedState × List MqttAction :=
  let topic := _build_topic channel_type identifier
  let callbacks := addCallback st.feed_callbacks topic callback
  if identifierInTopics identifier st.subscription_topics then
    ({ feed_callbacks := callbacks, subscription_topics := st.subscription_topics }, [])
  else
    ({ feed_callbacks := callbacks,
       subscription_topics := setAdd st.subscription_topics topic },
      _subscribe [topic])

/-- `_on_connect` (lines 127-130): on every transport connected event,
resubscribe the whole accumulated topic set. -/
def _on_connect (st : FeedState) : List MqttAction :=
  _subscribe st.subscription_topics

/-- `_on_subscribe` (lines 135-146): walk the acknowledged
(subscription, granted QoS) pairs of the batch and re-issue exactly the
subscriptions whose granted code is error-class. -/
def _on_subscribe (subscriptions : List Subscription) (qos : List Nat) :
    List MqttAction :=
  ((subscriptions.zip qos).filter fun p => decide (UNSPECIFIED_ERROR ≤ p.2)).map
    fun p => .resubscribe p.1

/-- `send` (lines 95-100): one transport publish of the built message on the
built topic at the session default QoS, unconditionally. -/
def send (message : Option JVal) (channel_type : ChannelType)
    (identifier : Option String) : List MqttAction :=
  [.publish (_build_topic channel_type identifier)
    (_build_message channel_type message) default_QOS]

/-- The spec's semantic-version ordering on major.minor.patch triples
(second, clearly spec-side definition for the refinement claim C3):
component-wise numeric comparison, major first, then minor, then patch —
not lexical string comparison. -/
def semverLt : Nat × Nat × Nat → Nat × Nat × Nat → Bool
  | (a1, b1, c1), (a2, b2, c2) =>
    decide (a1 < a2) || (a1 == a2 && (decide (b1 < b2) || (b1 == b2 && decide (c1 < c2))))

/-- The decimal major.minor.patch rendering of a version triple. -/
def semverString (a b c : Nat) : String :=
  ⟨natToDigits a ++ '.' :: (natToDigits b ++ '.' :: natToDigits c)⟩

theorem digitVal_digitChar {n : Nat} (h : n < 10) : digitVal (digitChar n) = n := by
  interval_cases n <;> rfl

theorem isDigit_digitChar {n : Nat} (h : n < 10) : (digitChar n).isDigit = true := by
  interval_cases n <;> rfl

theorem natToDigits_ne_nil (n : Nat) : natToDigits n ≠ [] := by
  rw [natToDigits]
  split
  · simp
  · simp

theorem natToDigits_all_digit (n : Nat) : ∀ c ∈ natToDigits n, c.isDigit = true := by
  induction n using Nat.strong_induction_on with
  | _ n ih =>
    rw [natToDigits]
    split
    · next h =>
      intro c hc
      simp only [List.mem_singleton] at hc
      subst hc
      exact isDigit_digitChar h
    · next h =>
      intro c hc
      rcases List.mem_append.mp hc with h1 | h2
      · exact ih (n / 10) (Nat.div_lt_self (by omega) (by omega)) c h1
      · simp only [List.mem_singleton] at h2
        subst h2
        exact isDigit_digitChar (Nat.mod_lt _ (by omega))

theorem digitsToNatFrom_append (acc : Nat) (a b : List Char) :
    digitsToNatFrom acc (a ++ b) = digitsToNatFrom (digitsToNatFrom acc a) b := by
  simp [digitsToNatFrom, List.foldl_append]

theorem digitsToNatFrom_natToDigits (n acc : Nat) :
    digitsToNatFrom acc (natToDigits n) = acc * 10 ^ (natToDigits n).length + n := by
  induction n using Nat.strong_induction_on generalizing acc with
  | _ n ih =>
    rw [natToDigits]
    split
    · next h =>
      simp [digitsToNatFrom, digitVal_digitChar h]
    · next h =>
      rw [digitsToNatFrom_append]
      rw [ih (n / 10) (Nat.div_lt_self (by omega) (by omega)) acc]
      simp only [digitsToNatFrom, List.foldl, digitVal_digitChar (Nat.mod_lt n (by omega) : n % 10 < 10)]
      rw [List.length_append]
      simp only [List.length_singleton]
      rw [pow_succ]
      have : 10 * (n / 10) + n % 10 = n := Nat.div_add_mod n 10
      ring_nf
      omega

theorem digitsToNat_natToDigits (n : Nat) : digitsToNat (natToDigits n) = n := by
  simp [digitsToNat, digitsToNatFrom_natToDigits]

theorem pySpan_snd_length_le (p : Char → Bool) (l : List Char) :
    (pySpan p l).2.length ≤ l.length := by
  induction l with
  | nil => simp [pySpan]
  | cons c cs ih =>
    by_cases h : p c
    · simp only [pySpan, h, if_pos]
      exact Nat.le_trans ih (Nat.le_succ _)
    · simp [pySpan, h]

theorem pySpan_run (p : Char → Bool) (ds rest : List Char)
    (hds : ∀ c ∈ ds, p c = true)
    (hrest : ∀ c, rest.head? = some c → p c = false) :
    pySpan p (ds ++ rest) = (ds, rest) := by
  induction ds with
  | nil =>
    cases rest with
    | nil => rfl
    | cons c cs =>
      have := hrest c rfl
      simp [pySpan, this]
  | cons d ds ih =>
    have hd := hds d (by simp)
    simp only [List.cons_append, pySpan, hd, if_pos]
    have h2 := ih (fun c hc => hds c (by simp [hc]))
    rw [show ds.append rest = ds ++ rest from rfl, h2]

theorem parseStrChars_run (s rest : List Char) (h : ∀ c ∈ s, c ≠ '"') :
    parseStrChars (s ++ '"' :: rest) = some (s, rest) := by
  induction s with
  | nil => rfl
  | cons c cs ih =>
    have hc : c ≠ '"' := h c (by simp)
    simp only [List.cons_append, parseStrChars, if_neg hc]
    rw [show List.append cs ('"' :: rest) = cs ++ '"' :: rest from rfl,
      ih (fun d hd => h d (by simp [hd]))]

theorem wfStr_spec {s : String} (h : wfStr s = true) :
    ∀ c ∈ s.data, 32 ≤ c.toNat ∧ c.toNat < 128 ∧ c ≠ '"' ∧ c ≠ '\\' := by
  intro c hc
  simp only [wfStr, List.all_eq_true] at h
  have := h c hc
  simp only [Bool.and_eq_true, decide_eq_true_eq, bne_iff_ne] at this
  tauto

theorem sizeV_pos (v : JVal) : 1 ≤ sizeV v := by
  cases v <;> simp [sizeV]

theorem sizeF_pos (fs : JFields) : 1 ≤ sizeF fs := by
  cases fs with
  | nil => simp [sizeF]
  | cons k v rest => simp only [sizeF]; omega

theorem isDigit_ne_quote {c : Char} (h : c.isDigit = true) : c ≠ '"' := by
  intro heq
  rw [heq] at h
  exact absurd h (by decide)

theorem noDigitHead_nil : noDigitHead [] := by
  intro c h
  simp at h

theorem noDigitHead_cons {c : Char} (h : c.isDigit = false) (l : List Char) :
    noDigitHead (c :: l) := by
  intro d hd
  simp only [List.head?_cons, Option.some_inj] at hd
  subst hd
  exact h

/-- Round trip of the canonical JSON printer and the parser, proved for
every fuel at least the structural size: parsing the serialization of a
well-formed value consumes exactly that text and returns the value. -/
theorem parse_dumps (f : Nat) :
    (∀ (v : JVal) (rest : List Char), sizeV v ≤ f → wfV v = true →
      noDigitHead rest → parseV f (dumpsV v ++ rest) = some (v, rest)) ∧
    (∀ (fs : JFields) (rest : List Char), sizeF fs ≤ f → wfF fs = true →
      parseF f (dumpsF fs ++ '}' :: rest) = some (fs, rest)) := by
  induction f with
  | zero =>
    constructor
    · intro v rest hsz _ _
      exact absurd hsz (by have := sizeV_pos v; omega)
    · intro fs rest hsz _
      exact absurd hsz (by have := sizeF_pos fs; omega)
  | succ f ih =>
    obtain ⟨ihV, ihF⟩ := ih
    constructor
    · intro v rest hsz hwf hrest
      cases v with
      | jstr s =>
        obtain ⟨sd⟩ := s
        have hq : ∀ c ∈ sd, c ≠ '"' := by
          intro c hc
          exact (wfStr_spec (by simpa [wfV] using hwf) c hc).2.2.1
        show parseV (f + 1) (('"' :: sd ++ ['"']) ++ rest) = _
        have harr : ('"' :: sd ++ ['"']) ++ rest = '"' :: (sd ++ '"' :: rest) := by
          simp
        rw [harr]
        simp only [parseV, if_pos rfl]
        rw [parseStrChars_run sd rest hq]
        simp
      | jnat n =>
        have hne := natToDigits_ne_nil n
        have hdig := natToDigits_all_digit n
        obtain ⟨d, ds, hds⟩ : ∃ d ds, natToDigits n = d :: ds := by
          cases h : natToDigits n with
          | nil => exact absurd h hne
          | cons d ds => exact ⟨d, ds, rfl⟩
        have hd : d.isDigit = true := hdig d (by rw [hds]; simp)
        show parseV (f + 1) (dumpsV (.jnat n) ++ rest) = _
        have hdv : dumpsV (.jnat n) = natToDigits n := rfl
        rw [hdv, hds, List.cons_append]
        simp only [parseV, if_neg (isDigit_ne_quote hd), hd, if_pos]
        have hspan : pySpan Char.isDigit (d :: (ds ++ rest)) = (d :: ds, rest) := by
          have := pySpan_run Char.isDigit (d :: ds) rest
            (fun c hc => hdig c (by rw [hds]; exact hc)) hrest
          simpa using this
        rw [hspan]
        have : digitsToNat (d :: ds) = n := by
          rw [← hds]
          exact digitsToNat_natToDigits n
        rw [this]
      | jobj fs =>
        show parseV (f + 1) (('{' :: dumpsF fs ++ ['}']) ++ rest) = _
        have harr : ('{' :: dumpsF fs ++ ['}']) ++ rest =
            '{' :: (dumpsF fs ++ '}' :: rest) := by
          simp
        rw [harr]
        have hf := ihF fs rest (by simp [sizeV] at hsz; omega) (by simpa [wfV] using hwf)
        simp [parseV, hf, (by decide : ¬(('{' : Char) = '"')),
          (by decide : ('{' : Char).isDigit = false)]
    · intro fs rest hsz hwf
      cases fs with
      | nil =>
        show parseF (f + 1) ([] ++ '}' :: rest) = _
        rw [List.nil_append]
        simp [parseF]
      | cons k v fs =>
        obtain ⟨kd⟩ := k
        have hwf3 : wfStr ⟨kd⟩ = true ∧ wfV v = true ∧ wfF fs = true := by
          simpa [wfF, Bool.and_eq_true, and_assoc] using hwf
        have hq : ∀ c ∈ kd, c ≠ '"' := fun c hc => (wfStr_spec hwf3.1 c hc).2.2.1
        have hszv : sizeV v ≤ f := by
          simp only [sizeF] at hsz
          have := sizeF_pos fs
          omega
        have hszf : sizeF fs ≤ f := by
          simp only [sizeF] at hsz
          have := sizeV_pos v
          omega
        cases fs with
        | nil =>
          show parseF (f + 1)
            (('"' :: kd ++ '"' :: ':' :: ' ' :: dumpsV v ++ []) ++ '}' :: rest) = _
          have harr : ('"' :: kd ++ '"' :: ':' :: ' ' :: dumpsV v ++ []) ++ '}' :: rest =
              '"' :: (kd ++ '"' :: (':' :: ' ' :: (dumpsV v ++ '}' :: rest))) := by
            simp
          rw [harr]
          have hv := ihV v ('}' :: rest) hszv hwf3.2.1 (noDigitHead_cons (by decide) rest)
          simp [parseF, parseStrChars_run kd _ hq, hv,
            (by decide : ¬(('"' : Char) = '}')),
            (by decide : ¬(('}' : Char) = ','))]
        | cons k2 v2 fs2 =>
          show parseF (f + 1)
            (('"' :: kd ++ '"' :: ':' :: ' ' :: dumpsV v ++
              (',' :: ' ' :: dumpsF (.cons k2 v2 fs2))) ++ '}' :: rest) = _
          have harr : ('"' :: kd ++ '"' :: ':' :: ' ' :: dumpsV v ++
              (',' :: ' ' :: dumpsF (.cons k2 v2 fs2))) ++ '}' :: rest =
              '"' :: (kd ++ '"' :: (':' :: ' ' ::
                (dumpsV v ++ (',' :: ' ' :: (dumpsF (.cons k2 v2 fs2) ++ '}' :: rest))))) := by
            simp
          rw [harr]
          have hv := ihV v (',' :: ' ' :: (dumpsF (.cons k2 v2 fs2) ++ '}' :: rest)) hszv
            hwf3.2.1 (noDigitHead_cons (by decide) _)
          have hf := ihF (.cons k2 v2 fs2) rest hszf hwf3.2.2
          simp [parseF, parseStrChars_run kd _ hq, hv, hf,
            (by decide : ¬(('"' : Char) = '}'))]

theorem zlib_roundtrip (b : List Nat) : zlib_decompress (zlib_compress b) = some b := rfl

theorem utf8_roundtrip (s : List Char) (h : ∀ c ∈ s, c.toNat < 128) :
    utf8Decode (utf8Encode s) = some s := by
  unfold utf8Decode utf8Encode
  rw [if_pos]
  · rw [List.map_map]
    congr 1
    conv_rhs => rw [← List.map_id s]
    refine List.map_congr_left fun c hc => ?_
    exact Char.ofNat_toNat c
  · rw [List.all_eq_true]
    intro n hn
    obtain ⟨c, hc, rfl⟩ := List.mem_map.mp hn
    exact decide_eq_true (h c hc)

theorem ascii_digitChar {n : Nat} (h : n < 10) :
    32 ≤ (digitChar n).toNat ∧ (digitChar n).toNat < 128 := by
  interval_cases n <;> exact (by decide)

theorem natToDigits_ascii (n : Nat) :
    ∀ c ∈ natToDigits n, 32 ≤ c.toNat ∧ c.toNat < 128 := by
  induction n using Nat.strong_induction_on with
  | _ n ih =>
    rw [natToDigits]
    split
    · next h =>
      intro c hc
      simp only [List.mem_singleton] at hc
      subst hc
      exact ascii_digitChar h
    · next h =>
      intro c hc
      rcases List.mem_append.mp hc with h1 | h2
      · exact ih (n / 10) (Nat.div_lt_self (by omega) (by omega)) c h1
      · simp only [List.mem_singleton] at h2
        subst h2
        exact ascii_digitChar (Nat.mod_lt _ (by omega))

mutual
theorem dumpsV_ascii (v : JVal) (h : wfV v = true) :
    ∀ c ∈ dumpsV v, 32 ≤ c.toNat ∧ c.toNat < 128 := by
  cases v with
  | jstr s =>
    intro c hc
    rcases List.mem_cons.mp hc with rfl | hc
    · exact (by decide)
    rcases List.mem_append.mp hc with hc | hc
    · have := wfStr_spec (by simpa [wfV] using h) c hc
      exact ⟨this.1, this.2.1⟩
    · rcases List.mem_singleton.mp hc with rfl
      exact (by decide)
  | jnat n =>
    intro c hc
    exact natToDigits_ascii n c hc
  | jobj fs =>
    intro c hc
    rcases List.mem_cons.mp hc with rfl | hc
    · exact (by decide)
    rcases List.mem_append.mp hc with hc | hc
    · exact dumpsF_ascii fs (by simpa [wfV] using h) c hc
    · rcases List.mem_singleton.mp hc with rfl
      exact (by decide)
theorem dumpsF_ascii (fs : JFields) (h : wfF fs = true) :
    ∀ c ∈ dumpsF fs, 32 ≤ c.toNat ∧ c.toNat < 128 := by
  cases fs with
  | nil =>
    intro c hc
    simp [dumpsF] at hc
  | cons k v rest =>
    have h3 : wfStr k = true ∧ wfV v = true ∧ wfF rest = true := by
      simpa [wfF, Bool.and_eq_true, and_assoc] using h
    intro c hc
    cases rest with
    | nil =>
      rw [show dumpsF (.cons k v .nil) =
        '"' :: k.data ++ '"' :: ':' :: ' ' :: dumpsV v ++ [] from rfl] at hc
      rcases List.mem_cons.mp hc with rfl | hc
      · exact (by decide)
      rcases List.mem_append.mp hc with hc | hc
      swap
      · simp at hc
      rcases List.mem_append.mp hc with hc | hc
      · have := wfStr_spec h3.1 c hc
        exact ⟨this.1, this.2.1⟩
      rcases List.mem_cons.mp hc with rfl | hc
      · exact (by decide)
      rcases List.mem_cons.mp hc with rfl | hc
      · exact (by decide)
      rcases List.mem_cons.mp hc with rfl | hc
      · exact (by decide)
      exact dumpsV_ascii v h3.2.1 c hc
    | cons k2 v2 fs2 =>
      rw [show dumpsF (.cons k v (.cons k2 v2 fs2)) =
        '"' :: k.data ++ '"' :: ':' :: ' ' :: dumpsV v ++
          (',' :: ' ' :: dumpsF (.cons k2 v2 fs2)) from rfl] at hc
      rcases List.mem_cons.mp hc with rfl | hc
      · exact (by decide)
      rcases List.mem_append.mp hc with hc | hc
      swap
      · rcases List.mem_cons.mp hc with rfl | hc
        · exact (by decide)
        rcases List.mem_cons.mp hc with rfl | hc
        · exact (by decide)
        exact dumpsF_ascii (.cons k2 v2 fs2) h3.2.2 c hc
      rcases List.mem_append.mp hc with hc | hc
      · have := wfStr_spec h3.1 c hc
        exact ⟨this.1, this.2.1⟩
      rcases List.mem_cons.mp hc with rfl | hc
      · exact (by decide)
      rcases List.mem_cons.mp hc with rfl | hc
      · exact (by decide)
      rcases List.mem_cons.mp hc with rfl | hc
      · exact (by decide)
      exact dumpsV_ascii v h3.2.1 c hc
end

mutual
theorem sizeV_le_dumpsV (v : JVal) : sizeV v ≤ (dumpsV v).length := by
  cases v with
  | jstr s => simp [sizeV, dumpsV]
  | jnat n =>
    have := natToDigits_ne_nil n
    have : 0 < (natToDigits n).length := List.length_pos.mpr this
    simp only [sizeV, dumpsV]
    omega
  | jobj fs =>
    have := sizeF_le_dumpsF fs
    simp only [sizeV, dumpsV, List.length_cons, List.length_append,
      List.length_singleton]
    omega
theorem sizeF_le_dumpsF (fs : JFields) : sizeF fs ≤ (dumpsF fs).length + 1 := by
  cases fs with
  | nil => simp [sizeF, dumpsF]
  | cons k v rest =>
    have hv := sizeV_le_dumpsV v
    have hf := sizeF_le_dumpsF rest
    cases rest with
    | nil =>
      simp only [sizeF, dumpsF, List.length_cons, List.length_append] at *
      omega
    | cons k2 v2 fs2 =>
      simp only [sizeF, dumpsF, List.length_cons, List.length_append] at *
      omega
end

/-- Parsing the full canonical serialization of a well-formed value with the
fuel `json_loads` supplies returns exactly that value. -/
theorem json_loads_dumpsV (v : JVal) (h : wfV v = true) :
    json_loads (dumpsV v) = some v := by
  have hf := (parse_dumps ((dumpsV v).length + 1)).1 v [] (by
    have := sizeV_le_dumpsV v
    omega) h noDigitHead_nil
  rw [List.append_nil] at hf
  simp [json_loads, hf]

theorem wfV_envelope (c : ChannelType) (v : JVal)
    (hch : wfStr c.value = true) (hv : wfV v = true) :
    wfV (envelope c v) = true := by
  have h1 : wfStr CHANNEL_TYPE_KEY = true := by decide
  have h2 : wfStr VERSION_KEY = true := by decide
  have h3 : wfStr VALUE_KEY = true := by decide
  have h4 : wfStr COMMUNITY_FEED_CURRENT_MINIMUM_VERSION = true := by decide
  simp [envelope, wfV, wfF, hch, hv, h1, h2, h3, h4]

/-- Decoding inverts the envelope encoding byte for byte. -/
theorem decodePayload_encode (c : ChannelType) (v : JVal)
    (hch : wfStr c.value = true) (hv : wfV v = true) :
    decodePayload (zlib_compress (utf8Encode (dumpsV (envelope c v)))) =
      .ok (envelope c v) := by
  have hwfe := wfV_envelope c v hch hv
  have hascii : ∀ ch ∈ dumpsV (envelope c v), ch.toNat < 128 := by
    intro ch hc
    exact (dumpsV_ascii _ hwfe ch hc).2
  have h1 := zlib_roundtrip (utf8Encode (dumpsV (envelope c v)))
  have h2 := utf8_roundtrip _ hascii
  have h3 := json_loads_dumpsV _ hwfe
  simp [decodePayload, h1, h2, h3]

/-- A digit run followed by a non-digit rest tokenizes to its numeric value
followed by the rest's tokens. -/
theorem looseTokenize_digits (n : Nat) (rest : List Char)
    (hrest : noDigitHead rest) :
    looseTokenize (natToDigits n ++ rest) = .num n :: looseTokenize rest := by
  obtain ⟨d, ds, hds⟩ : ∃ d ds, natToDigits n = d :: ds := by
    cases h : natToDigits n with
    | nil => exact absurd h (natToDigits_ne_nil n)
    | cons d ds => exact ⟨d, ds, rfl⟩
  have hdig := natToDigits_all_digit n
  have hd : d.isDigit = true := hdig d (by rw [hds]; simp)
  rw [hds, List.cons_append]
  rw [looseTokenize]
  rw [if_pos hd]
  have hspan : pySpan Char.isDigit (ds ++ rest) = (ds, rest) :=
    pySpan_run _ ds rest (fun c hc => hdig c (by rw [hds]; simp [hc])) hrest
  rw [hspan]
  have hval : digitsToNat (d :: ds) = n := by
    rw [← hds]
    exact digitsToNat_natToDigits n
  rw [hval]

theorem looseTokenize_dot (rest : List Char) :
    looseTokenize ('.' :: rest) = looseTokenize rest := by
  rw [looseTokenize]
  simp [(by decide : ('.' : Char).isDigit = false)]

/-- The tokenization of a major.minor.patch decimal version string. -/
theorem looseVersionParse_semverString (a b c : Nat) :
    looseVersionParse (semverString a b c) = [.num a, .num b, .num c] := by
  show looseTokenize (natToDigits a ++ '.' :: (natToDigits b ++ '.' :: natToDigits c)) = _
  rw [looseTokenize_digits a _ (noDigitHead_cons (by decide) _)]
  rw [looseTokenize_dot]
  rw [looseTokenize_digits b _ (noDigitHead_cons (by decide) _)]
  rw [looseTokenize_dot]
  rw [show natToDigits c = natToDigits c ++ [] by simp]
  rw [looseTokenize_digits c [] noDigitHead_nil]
  rw [looseTokenize]

/-- LooseVersion comparison of two all-numeric three-component versions is
exactly the spec's component-wise semantic-version comparison. -/
theorem looseListLt_semver (a b c d e f : Nat) :
    looseListLt [.num a, .num b, .num c] [.num d, .num e, .num f] =
      some (semverLt (a, b, c) (d, e, f)) := by
  by_cases had : a = d
  · subst had
    by_cases hbe : b = e
    · subst hbe
      by_cases hcf : c = f
      · subst hcf
        simp [looseListLt, semverLt]
      · simp [looseListLt, lcLt, semverLt, hcf, LC.num.injEq]
    · simp [looseListLt, lcLt, semverLt, hbe, LC.num.injEq]
  · simp [looseListLt, lcLt, semverLt, had, LC.num.injEq]

theorem register_feed_callbacks_eq (st : FeedState) (c : ChannelType)
    (cb : Nat) (i : Option String) :
    (register_feed_callback st c cb i).1.feed_callbacks =
      addCallback st.feed_callbacks (_build_topic c i) cb := by
  by_cases h : identifierInTopics i st.subscription_topics <;>
    simp [register_feed_callback, h]

theorem getCallbacks_addCallback (l : List (String × List Nat)) (t : String) (cb : Nat) :
    (match (addCallback l t cb).find? fun p => p.1 == t with
     | some p => p.2
     | none => []) =
    (match l.find? fun p => p.1 == t with
     | some p => p.2
     | none => []) ++ [cb] := by
  induction l with
  | nil => simp [addCallback, List.find?]
  | cons p l ih =>
    obtain ⟨k, cbs⟩ := p
    by_cases hk : k = t
    · subst hk
      rw [show addCallback ((k, cbs) :: l) k cb = (k, cbs ++ [cb]) :: l from by
        simp [addCallback]]
      rw [List.find?_cons_of_pos _ (by simp), List.find?_cons_of_pos _ (by simp)]
    · rw [show addCallback ((k, cbs) :: l) t cb = (k, cbs) :: addCallback l t cb from by
        simp [addCallback, hk]]
      rw [List.find?_cons_of_neg _ (by simp [hk]), List.find?_cons_of_neg _ (by simp [hk])]
      exact ih

theorem count_resubscribe (l : List (Subscription × Nat)) (s : Subscription) :
    ((l.filter fun p => decide (UNSPECIFIED_ERROR ≤ p.2)).map
        fun p => MqttAction.resubscribe p.1).count (MqttAction.resubscribe s) =
      (l.filter fun p => p.1 == s && decide (UNSPECIFIED_ERROR ≤ p.2)).length := by
  induction l with
  | nil => rfl
  | cons p l ih =>
    obtain ⟨ps, pq⟩ := p
    by_cases hq : UNSPECIFIED_ERROR ≤ pq
    · by_cases hs : ps = s
      · subst hs
        simp [List.filter_cons, hq, List.count_cons, ih]
      · simp [List.filter_cons, hq, hs, List.count_cons, ih]
    · simp [List.filter_cons, hq, ih]

/-- Claim C1, counterexample: a three-byte payload that is not a zlib
stream makes the message handler raise — the decode error escapes
`_on_message` (it is not logged-and-swallowed there), even though a
callback is registered for the topic. -/
theorem c1_counterexample :
    _on_message ⟨[("t", [1])], []⟩ "t" [0, 1, 2] = .error .decodeError := rfl

/-- Claim C1, amended: for every inbound message whose payload fails to
decode, the message handler does not catch the exception — it propagates
out of `_on_message` and no callback is invoked for that message; only the
version-unsupported error is caught, logged and swallowed. -/
theorem c1_decode_error_propagates (st : FeedState) (topic : String)
    (payload : List Nat) (e : PyErr) (h : decodePayload payload = .error e) :
    _on_message st topic payload = .error e := by
  simp [_on_message, h]

theorem c1_witness :
    decodePayload [0] = .error .decodeError ∧
    _on_message ⟨[], []⟩ "x" [0] = .error .decodeError :=
  ⟨rfl, c1_decode_error_propagates ⟨[], []⟩ "x" [0] .decodeError rfl⟩

/-- Claim C2, code bug, evaluated at the failing input: registering the
same channel and identifier twice issues a second immediate subscribe
request for a topic that already sits in the subscribed set, because the
line-63 guard tests the identifier, not the topic, against
`_subscription_topics`.  The set itself still holds the topic once. -/
theorem c2_duplicate_subscribe :
    (register_feed_callback ⟨[], []⟩ ⟨"signals"⟩ 1 (some "id")).1.subscription_topics
        = ["signals/id"] ∧
    (register_feed_callback ⟨[], []⟩ ⟨"signals"⟩ 1 (some "id")).2
        = [.subscribe [("signals/id", 1)]] ∧
    (register_feed_callback
        (register_feed_callback ⟨[], []⟩ ⟨"signals"⟩ 1 (some "id")).1
        ⟨"signals"⟩ 2 (some "id")).1.subscription_topics = ["signals/id"] ∧
    (register_feed_callback
        (register_feed_callback ⟨[], []⟩ ⟨"signals"⟩ 1 (some "id")).1
        ⟨"signals"⟩ 2 (some "id")).2 = [.subscribe [("signals/id", 1)]] :=
  ⟨rfl, rfl, rfl, rfl⟩

theorem natToDigits_lt10 {n : Nat} (h : n < 10) : natToDigits n = [digitChar n] := by
  rw [natToDigits]
  rw [if_pos h]

theorem min_version_eq_semverString :
    COMMUNITY_FEED_CURRENT_MINIMUM_VERSION = semverString 1 0 0 := by
  rw [semverString, natToDigits_lt10 (by omega), natToDigits_lt10 (by omega)]
  decide

/-- The behaviour of the version check on any envelope carrying a decimal
major.minor.patch version: it rejects exactly below the 1.0.0 minimum. -/
theorem ensure_supported_semver (fsx : JFields) (a b c : Nat)
    (hv : jfind fsx VERSION_KEY = some (.jstr (semverString a b c))) :
    _ensure_supported (.jobj fsx) =
      if semverLt (a, b, c) (1, 0, 0) = true then .error .unsupportedError
      else .ok () := by
  have hget : getItem (.jobj fsx) VERSION_KEY = .ok (.jstr (semverString a b c)) := by
    simp [getItem, hv]
  have hparse := looseVersionParse_semverString a b c
  have hmin : looseVersionParse COMMUNITY_FEED_CURRENT_MINIMUM_VERSION
      = [.num 1, .num 0, .num 0] := by
    rw [min_version_eq_semverString]
    exact looseVersionParse_semverString 1 0 0
  cases hsv : semverLt (a, b, c) (1, 0, 0) with
  | true =>
    have hcmp2 : looseListLt [LC.num a, LC.num b, LC.num c]
        [LC.num 1, LC.num 0, LC.num 0] = some true := by
      rw [looseListLt_semver, hsv]
    simp [_ensure_supported, hget, hparse, hmin, hcmp2]
  | false =>
    have hcmp2 : looseListLt [LC.num a, LC.num b, LC.num c]
        [LC.num 1, LC.num 0, LC.num 0] = some false := by
      rw [looseListLt_semver, hsv]
    simp [_ensure_supported, hget, hparse, hmin, hcmp2]

/-- The version check accepts every envelope this client itself builds
(their version is the minimum constant). -/
theorem ensure_supported_envelope (c : ChannelType) (v : JVal) :
    _ensure_supported (envelope c v) = .ok () := by
  rw [show envelope c v = .jobj (.cons CHANNEL_TYPE_KEY (.jstr c.value)
      (.cons VERSION_KEY (.jstr (semverString 1 0 0))
        (.cons VALUE_KEY v .nil))) from by
    rw [envelope, min_version_eq_semverString]]
  rw [ensure_supported_semver (.cons CHANNEL_TYPE_KEY (.jstr c.value)
      (.cons VERSION_KEY (.jstr (semverString 1 0 0))
        (.cons VALUE_KEY v .nil))) 1 0 0 rfl]
  rw [if_neg (by decide)]

/-- Claim C3: the version gate rejects with `UnsupportedError` exactly when
the envelope's major.minor.patch version is semantically below the modelled
minimum 1.0.0, and a rejected message is swallowed by the handler with no
callback invoked. -/
theorem c3_version_gate (fs : JFields) (a b c : Nat)
    (hv : jfind fs VERSION_KEY = some (.jstr (semverString a b c))) :
    (_ensure_supported (.jobj fs) = .error .unsupportedError ↔
      semverLt (a, b, c) (1, 0, 0) = true) ∧
    (∀ (st : FeedState) (topic : String) (payload : List Nat),
      decodePayload payload = .ok (.jobj fs) →
      _ensure_supported (.jobj fs) = .error .unsupportedError →
      _on_message st topic payload = .ok []) := by
  have hens := ensure_supported_semver fs a b c hv
  by_cases hlt : semverLt (a, b, c) (1, 0, 0) = true
  · rw [if_pos hlt] at hens
    refine ⟨⟨fun _ => hlt, fun _ => hens⟩, ?_⟩
    intro st topic payload hdec _
    simp [_on_message, hdec, hens]
  · rw [if_neg hlt] at hens
    refine ⟨⟨fun hcontra => absurd (hens.symm.trans hcontra) (by simp),
      fun hsemver => absurd hsemver hlt⟩, ?_⟩
    intro st topic payload hdec hsup
    rw [hens] at hsup
    simp at hsup

theorem c3_witness :
    _ensure_supported (.jobj (.cons VERSION_KEY (.jstr (semverString 0 0 1)) .nil))
      = .error .unsupportedError :=
  (c3_version_gate (.cons VERSION_KEY (.jstr (semverString 0 0 1)) .nil)
    0 0 1 rfl).1.mpr (by decide)

/-- Claim C4: for a truthy well-formed value, the outbound encoding is
compressed bytes whose decoding (decompress, UTF-8 decode, JSON parse)
yields exactly the envelope of the channel tag, the process-wide minimum
version, and the value. -/
theorem c4_roundtrip (c : ChannelType) (v : JVal)
    (htr : pyTruthyJ v = true) (hwf : wfV v = true) (hch : wfStr c.value = true) :
    ∃ b : List Nat, _build_message c (some v) = .bytes b ∧
      decodePayload b = .ok (envelope c v) :=
  ⟨zlib_compress (utf8Encode (dumpsV (envelope c v))),
    by simp [_build_message, htr], decodePayload_encode c v hch hwf⟩

theorem c4_witness :
    ∃ b : List Nat, _build_message ⟨"signals"⟩ (some (.jstr "hello")) = .bytes b ∧
      decodePayload b = .ok (envelope ⟨"signals"⟩ (.jstr "hello")) :=
  c4_roundtrip ⟨"signals"⟩ (.jstr "hello") (by decide) (by decide) (by decide)

/-- Claim C5, code bug, evaluated at the failing input: after registering
the topic signals/None (absent identifier) and then a callback whose
identifier string equals that existing topic, the second topic
price/signals/None is present in the callback registry but missing from
the subscribed set, so the on-connect bulk resubscription omits it. -/
theorem c5_omitted_topic :
    (register_feed_callback
        (register_feed_callback ⟨[], []⟩ ⟨"signals"⟩ 1 none).1
        ⟨"price"⟩ 2 (some "signals/None")).1.feed_callbacks.map Prod.fst
      = ["signals/None", "price/signals/None"] ∧
    _on_connect (register_feed_callback
        (register_feed_callback ⟨[], []⟩ ⟨"signals"⟩ 1 none).1
        ⟨"price"⟩ 2 (some "signals/None")).1
      = [.subscribe [("signals/None", 1)]] :=
  ⟨rfl, rfl⟩

/-- Claim C6: on a subscribe acknowledgment, the number of resubscribe
requests issued for a given subscription equals the number of its
acknowledged pairs whose granted QoS is error-class, and every issued
action is a resubscribe of some error-class pair of the batch. -/
theorem c6_resubscribe (subs : List Subscription) (qosl : List Nat) (s : Subscription) :
    (_on_subscribe subs qosl).count (.resubscribe s) =
      ((subs.zip qosl).filter fun p =>
        p.1 == s && decide (UNSPECIFIED_ERROR ≤ p.2)).length ∧
    ∀ a ∈ _on_subscribe subs qosl, ∃ p ∈ subs.zip qosl,
      UNSPECIFIED_ERROR ≤ p.2 ∧ a = .resubscribe p.1 := by
  constructor
  · exact count_resubscribe (subs.zip qosl) s
  · intro a ha
    simp only [_on_subscribe, List.mem_map, List.mem_filter,
      decide_eq_true_eq] at ha
    obtain ⟨p, ⟨hp, hq⟩, rfl⟩ := ha
    exact ⟨p, hp, hq, rfl⟩

theorem c6_witness :
    (_on_subscribe [("a", 1), ("b", 1)] [128, 0]).count (.resubscribe ("a", 1)) = 1 ∧
    (_on_subscribe [("a", 1), ("b", 1)] [128, 0]).count (.resubscribe ("b", 1)) = 0 := by
  constructor
  · rw [(c6_resubscribe [("a", 1), ("b", 1)] [128, 0] ("a", 1)).1]
    rfl
  · rw [(c6_resubscribe [("a", 1), ("b", 1)] [128, 0] ("b", 1)).1]
    rfl

/-- Claim C7: a message that decodes and passes the version check invokes
exactly the callbacks registered for its topic, in registration order
(registration appends at the end of the per-topic list); a topic with no
registered callbacks is silently ignored with no error. -/
theorem c7_callbacks (st : FeedState) (topic : String) (payload : List Nat)
    (m : JVal) (hdec : decodePayload payload = .ok m)
    (hsup : _ensure_supported m = .ok ()) :
    _on_message st topic payload = .ok (_get_callbacks st topic) ∧
    (_get_callbacks st topic = [] → _on_message st topic payload = .ok []) ∧
    (∀ (c : ChannelType) (cb : Nat) (i : Option String),
      _get_callbacks (register_feed_callback st c cb i).1 (_build_topic c i) =
        _get_callbacks st (_build_topic c i) ++ [cb]) := by
  have h1 : _on_message st topic payload = .ok (_get_callbacks st topic) := by
    simp [_on_message, hdec, hsup]
  refine ⟨h1, ?_, ?_⟩
  · intro h0
    rw [h1, h0]
  · intro c cb i
    unfold _get_callbacks
    rw [register_feed_callbacks_eq st c cb i]
    exact getCallbacks_addCallback st.feed_callbacks (_build_topic c i) cb

theorem c7_witness :
    _on_message ⟨[("t", [5, 7])], []⟩ "t"
        (zlib_compress (utf8Encode (dumpsV (envelope ⟨"signals"⟩ (.jstr "x")))))
      = .ok [5, 7] :=
  (c7_callbacks ⟨[("t", [5, 7])], []⟩ "t"
    (zlib_compress (utf8Encode (dumpsV (envelope ⟨"signals"⟩ (.jstr "x")))))
    (envelope ⟨"signals"⟩ (.jstr "x"))
    (decodePayload_encode ⟨"signals"⟩ (.jstr "x") (by decide) (by decide))
    (ensure_supported_envelope ⟨"signals"⟩ (.jstr "x"))).1

/-- Claim C8, counterexample: the absent identifier and the literal string
None are distinct identifiers that build the same topic, so distinct
identifiers do not always yield distinct topics. -/
theorem c8_counterexample :
    _build_topic ⟨"price"⟩ none = _build_topic ⟨"price"⟩ (some "None") ∧
    (none : Option String) ≠ some "None" :=
  ⟨rfl, by decide⟩

/-- Claim C8, amended: topic derivation is pure and deterministic, equal to
the channel value, a slash, and the identifier; for a fixed channel,
distinct PRESENT (string) identifiers yield distinct topics — the absent
identifier renders as the string None and collides with that literal
identifier. -/
theorem c8_topic (c : ChannelType) (i : Option String) (s1 s2 : String)
    (h : s1 ≠ s2) :
    _build_topic c i = _build_topic c i ∧
    _build_topic c (some s1) ≠ _build_topic c (some s2) ∧
    _build_topic ⟨"price"⟩ (some "A") = "price/A" ∧
    _build_topic ⟨"price"⟩ (some "B") = "price/B" := by
  refine ⟨rfl, ?_, rfl, rfl⟩
  intro heq
  apply h
  have hd := congrArg String.data heq
  simp only [_build_topic, identifierStr, String.data_append] at hd
  exact String.ext (List.append_cancel_left hd)

theorem c8_witness :
    _build_topic ⟨"price"⟩ (some "A") = "price/A" ∧
    _build_topic ⟨"price"⟩ (some "A") ≠ _build_topic ⟨"price"⟩ (some "B") := by
  have h := c8_topic ⟨"price"⟩ none "A" "B" (by decide)
  exact ⟨h.2.2.1, h.2.1⟩

/-- Claim C9: encoding an absent message and encoding an empty dict both
short-circuit to the same empty result and never build an envelope. -/
theorem c9_empty_shortcircuit (c : ChannelType) :
    _build_message c none = .emptyDict ∧
    _build_message c (some (.jobj .nil)) = .emptyDict ∧
    _build_message c none = _build_message c (some (.jobj .nil)) :=
  ⟨rfl, rfl, rfl⟩

/-- Claim C10: every send issues exactly one transport publish, on the
built topic, carrying the built message, at the session default QoS; a
falsy or absent message still publishes, with the encoder's empty
short-circuit result as payload. -/
theorem c10_send (message : Option JVal) (c : ChannelType) (i : Option String) :
    (send message c i).length = 1 ∧
    send message c i =
      [.publish (_build_topic c i) (_build_message c message) default_QOS] ∧
    (pyTruthy message = false → _build_message c message = .emptyDict) := by
  refine ⟨rfl, rfl, ?_⟩
  intro h
  cases message with
  | none => rfl
  | some v =>
    simp only [pyTruthy] at h
    simp [_build_message, h]

theorem c10_witness :
    (send none ⟨"signals"⟩ none).length = 1 ∧
    _build_message ⟨"signals"⟩ none = .emptyDict :=
  ⟨(c10_send none ⟨"signals"⟩ none).1, (c10_send none ⟨"signals"⟩ none).2.2 rfl⟩

end OctobotFeed
